import Mathlib

/-!
Shallow embedding of `packages/rolldown-require/src/plugins/resolve.ts`
(the module specifier resolution engine) and proofs about it.

Modelling conventions:
* Paths are plain strings; the filesystem is a finite model (`Fsys`) of
  file paths, directory paths and file contents.  `realpath` /
  `normalizePath` are modelled as the identity (symlinks are not
  modelled, separators are already POSIX).
* JavaScript string/array truthiness is modelled explicitly (`jsTruthy`):
  the empty string, `undefined` and `false` are falsy.
* Recursion through the filesystem (a package entry pointing back into a
  directory with a manifest) is bounded by an explicit fuel parameter;
  running out of fuel yields the distinguished error `outOfFuelErr`,
  which stands for the unbounded recursion of the real program.
* External collaborators that live outside the embedded file (the
  manifest subsystem, the conditional-export lookup library, utility
  predicates from other modules of the package) are modelled from the
  spec; each such definition carries a doc comment saying so.
-/

/-! ## Character / string helpers (explicit, kernel-reducible) -/

/-- Bool test that one character list is a prefix of another. -/
def listIsPre : List Char → List Char → Bool
  | [], _ => true
  | _ :: _, [] => false
  | p :: ps, c :: cs => p == c && listIsPre ps cs

/-- Index of the first occurrence of a character, if any. -/
def charIdx? : List Char → Char → Option Nat
  | [], _ => none
  | c :: cs, t => if c == t then some 0 else (charIdx? cs t).map (· + 1)

/-- Index of the first occurrence of a substring (as char lists), if any. -/
def subIdx? : List Char → List Char → Option Nat
  | l, pat =>
    if listIsPre pat l then some 0
    else match l with
      | [] => none
      | _ :: t => (subIdx? t pat).map (· + 1)

/-- Substring containment test (JS `String.prototype.includes`). -/
def strContainsStr (s sub : String) : Bool :=
  (subIdx? s.data sub.data).isSome

/-- First `n` characters of a string. -/
def takeStr (s : String) (n : Nat) : String := String.mk (s.data.take n)

/-- All but the first `n` characters of a string. -/
def dropStr (s : String) (n : Nat) : String := String.mk (s.data.drop n)

/-- Character length of a string. -/
def lenStr (s : String) : Nat := s.data.length

/-- JS `s.slice(0, -n)`: note `-0 === 0`, so `n = 0` yields the empty
string, unlike dropping zero characters from the end. -/
def jsSliceNeg (s : String) (n : Nat) : String :=
  if n = 0 then "" else String.mk (s.data.take (s.data.length - n))

/-- Bool test that `suf` is a suffix of `s` (JS `endsWith`). -/
def strEndsWith (s suf : String) : Bool :=
  listIsPre suf.data.reverse s.data.reverse

/-- Bool test that `p` is a prefix of `s` (JS `startsWith`). -/
def strStartsWith (s p : String) : Bool := listIsPre p.data s.data

/-- Replace the first occurrence of `pat` in `s` by `rep`
(JS `String.prototype.replace` with a string pattern). -/
def strReplaceFirst (s pat rep : String) : String :=
  match subIdx? s.data pat.data with
  | none => s
  | some i => takeStr s i ++ rep ++ dropStr s (i + pat.data.length)

/-- Association-list lookup with string keys (used to model JS object
field access and the caches of the external manifest subsystem). -/
def slookup {α : Type} : List (String × α) → String → Option α
  | [], _ => none
  | (k, v) :: rest, key => if k == key then some v else slookup rest key

/-- Association-list lookup keyed by a pair of strings. -/
def plookup {α : Type} : List ((String × String) × α) → String × String → Option α
  | [], _ => none
  | (k, v) :: rest, key =>
    if k.1 == key.1 && k.2 == key.2 then some v else plookup rest key

/-- JS truthiness of a `string | undefined` value: `undefined` and the
empty string are falsy. -/
def jsTruthy : Option String → Bool
  | some s => s != ""
  | none => false

/-! ## POSIX path helpers (`node:path`, POSIX flavour) -/

/-- Split a character list on `'/'`. -/
def splitSlash : List Char → List (List Char)
  | [] => [[]]
  | c :: cs =>
    if c == '/' then [] :: splitSlash cs
    else match splitSlash cs with
      | [] => [[c]]
      | s :: rest => (c :: s) :: rest

/-- Join segments with `'/'`. -/
def joinSlash : List (List Char) → List Char
  | [] => []
  | [s] => s
  | s :: rest => s ++ '/' :: joinSlash rest

/-- The `..`-resolving segment stack of Node's `normalizeString`:
`.` and empty segments are skipped; `..` pops, or is kept when above the
root of a relative path, or dropped when above the root of an absolute
path. -/
def normSegs (isAbs : Bool) (segs : List (List Char)) : List (List Char) :=
  (segs.foldl (fun acc s =>
    if s == ['.', '.'] then
      match acc with
      | [] => if isAbs then [] else [s]
      | t :: rest => if t == ['.', '.'] then s :: acc else rest
    else s :: acc) []).reverse

/-- POSIX `path.normalize`. -/
def posixNormalize (p : String) : String :=
  match p.data with
  | [] => "."
  | c0 :: rest =>
    let isAbs := c0 == '/'
    let trailing := (c0 :: rest).getLast? = some '/'
    let segs := (splitSlash (c0 :: rest)).filter (fun s => !(s == []) && !(s == ['.']))
    let segs2 := normSegs isAbs segs
    match segs2 with
    | [] =>
      if isAbs then "/" else if trailing then "./" else "."
    | _ =>
      let body := String.mk (joinSlash segs2)
      (if isAbs then "/" ++ body else body) ++ (if trailing then "/" else "")

/-- POSIX `path.join` of two segments (filter empties, join, normalize). -/
def pathJoin (a b : String) : String :=
  if a = "" && b = "" then "."
  else if a = "" then posixNormalize b
  else if b = "" then posixNormalize a
  else posixNormalize (a ++ "/" ++ b)

/-- POSIX `path.dirname` (Node's algorithm: skip trailing slashes, skip
the basename, cut before the separating slash; the scan never takes the
slash at index 0 as separator). -/
def posixDirname (p : String) : String :=
  match p.data with
  | [] => "."
  | c0 :: rest =>
    let hasRoot := c0 == '/'
    let r := (c0 :: rest).reverse
    let r1 := r.dropWhile (fun c => c == '/')
    let r2 := r1.dropWhile (fun c => !(c == '/'))
    let pre := (r2.drop 1).reverse
    if r2.isEmpty || pre.isEmpty then (if hasRoot then "/" else ".")
    else if hasRoot && pre == ['/'] then "//"
    else String.mk pre

/-- POSIX `path.basename` (trailing slashes are ignored). -/
def posixBasename (p : String) : String :=
  let r := p.data.reverse.dropWhile (fun c => c == '/')
  String.mk ((r.takeWhile (fun c => !(c == '/'))).reverse)

/-- Index of the last occurrence of a character. -/
def lastCharIdx? (l : List Char) (t : Char) : Option Nat :=
  (charIdx? l.reverse t).map (fun i => l.length - 1 - i)

/-- POSIX `path.extname` (from the last dot of the basename; a leading
dot or the name `..` yields the empty extension). -/
def posixExtname (p : String) : String :=
  let base := (p.data.reverse.takeWhile (fun c => !(c == '/'))).reverse
  match lastCharIdx? base '.' with
  | none => ""
  | some 0 => ""
  | some d => if base == ['.', '.'] then "" else String.mk (base.drop d)

/-! ## Filesystem model -/

/-- Finite model of the filesystem consulted by the resolver: the set of
existing regular files, the set of existing directories, and file
contents (used only by the browser-entry ESM sniff). -/
structure Fsys where
  files : List String := []
  dirs : List String := []
  contents : List (String × String) := []
deriving DecidableEq

def isFileFs (fs : Fsys) (p : String) : Bool := fs.files.contains p

def isDirFs (fs : Fsys) (p : String) : Bool := fs.dirs.contains p

/-- Model of `fs.existsSync`. -/
def existsSyncFs (fs : Fsys) (p : String) : Bool := isFileFs fs p || isDirFs fs p

/-- Model of `fs.readFileSync` (missing contents read as empty). -/
def readFileFs (fs : Fsys) (p : String) : String := (slookup fs.contents p).getD ""

/-- Modelled from the spec: `realPath(path, preserveSymlinks)` -- the
canonical path with normalized separators.  Symlinks are not modelled, so
canonicalization is the identity. -/
def getRealPath (resolved : String) (_preserveSymlinks : Bool) : String := resolved

/-- The kind returned by `tryResolveRealFileOrType`. -/
inductive FileKind where
  | file (path : String)
  | directory
deriving DecidableEq

def tryResolveRealFileOrType (fs : Fsys) (file : String)
    (preserveSymlinks : Bool) : Option FileKind :=
  if isFileFs fs file then some (.file (getRealPath file preserveSymlinks))
  else if isDirFs fs file then some .directory
  else none

def tryResolveRealFile (fs : Fsys) (file : String)
    (preserveSymlinks : Bool) : Option String :=
  if isFileFs fs file then some (getRealPath file preserveSymlinks) else none

/-- JS truthiness filter on a probe result: `undefined` and the empty
string are treated alike (the `if (res)` checks of the source). -/
def truthyOpt (o : Option String) : Option String :=
  if jsTruthy o then o else none

def tryResolveRealFileWithExtensions (fs : Fsys) (filePath : String)
    (extensions : List String) (preserveSymlinks : Bool) : Option String :=
  match extensions with
  | [] => none
  | ext :: rest =>
    truthyOpt (tryResolveRealFile fs (filePath ++ ext) preserveSymlinks) <|>
    tryResolveRealFileWithExtensions fs filePath rest preserveSymlinks

def isDirectory (fs : Fsys) (p : String) : Bool := isDirFs fs p

/-! ## Manifest model -/

/-- A value of the object-form `browser` field: a replacement subpath or
the literal `false` (explicit externalization). -/
inductive BrowserMapVal where
  | str (s : String)
  | fls
deriving DecidableEq

/-- The manifest `browser` field: absent, a plain string entry, or an
object-form substitution table. -/
inductive BrowserField where
  | absent
  | str (s : String)
  | obj (entries : List (String × BrowserMapVal))
deriving DecidableEq

/-- The manifest `exports` field shape as far as the resolver
distinguishes it: a bare string, an array, or a conditional map.  For the
map form the entries are modelled from the spec (section on the
conditional export resolver) as the already-condition-resolved mapping
from subpath key to target: the external lookup library returns the
first matched target for a present key and nothing for an absent one. -/
inductive ExportsField where
  | str (s : String)
  | arr (xs : List String)
  | obj (entries : List (String × String))
deriving DecidableEq

/-- Parsed manifest fields consumed by the resolver.  String-valued entry
fields (`main`, `module`, custom main-fields) live in `strFields`;
`name`, `exports` and `browser` are kept apart because the resolver
inspects their shape. -/
structure PackageJson where
  name : Option String := none
  exports : Option ExportsField := none
  browser : BrowserField := .absent
  strFields : List (String × String) := []
  peerDependencies : List (String × String) := []
  peerDependenciesMeta : List (String × Bool) := []
deriving DecidableEq

/-- Modelled from the spec: the `PackageDescriptor` owned by the external
manifest subsystem -- directory, parsed manifest, the per-subpath
resolved-path cache, and the side-effects predicate. -/
structure PackageData where
  dir : String
  data : PackageJson
  cache : List (String × String) := []
  hasSideEffects : String → Bool := fun _ => true

/-- Modelled from the spec: the external manifest subsystem, as finite
tables for `findNearestPackageData`, `findNearestMainPackageData`,
`resolvePackageData` (keyed by package name and base directory) and
`loadPackageData` (keyed by manifest file path). -/
structure PkgEnv where
  nearest : List (String × PackageData) := []
  nearestMain : List (String × PackageData) := []
  byNameBase : List ((String × String) × PackageData) := []
  byJsonPath : List (String × PackageData) := []

/-- JS truthiness of the `exports` field (`if (data.exports)`): only an
absent field or a bare empty string is falsy. -/
def exportsTruthy : Option ExportsField → Bool
  | some (.str s) => s != ""
  | some _ => true
  | none => false

/-! ## Options, constants and errors -/

/-- The options struct consumed by the resolver (the fields the embedded
functions read). -/
structure InternalResolveOptions where
  root : String := "/root"
  isBuild : Bool := false
  isProduction : Bool := false
  isRequire : Bool := false
  mainFields : List String := []
  conditions : List String := []
  extensions : List String := []
  dedupe : List String := []
  preserveSymlinks : Bool := false
  builtins : List String := []
  tryPrefix : Option String := none
  scan : Bool := false
  idOnly : Bool := false
deriving DecidableEq

def ERR_RESOLVE_PACKAGE_ENTRY_FAIL : String := "ERR_RESOLVE_PACKAGE_ENTRY_FAIL"

/-- Special id for paths marked with `browser: false`. -/
def browserExternalId : String := "__vite-browser-external"

/-- Special id for packages that are optional peer deps. -/
def optionalPeerDepId : String := "__vite-optional-peer-dep"

/-- Modelled from the spec: the placeholder condition that is substituted
by `"production"` / `"development"` in the condition list. -/
def DEV_PROD_CONDITION : String := "development|production"

/-- A thrown JS error, as far as the resolver inspects it: an optional
`code` property and the message. -/
structure JsError where
  code : Option String := none
  message : String
deriving DecidableEq

/-- The artifact of the fuel bound: stands for unbounded recursion of the
real program.  Its code is distinct from every code the program tests. -/
def outOfFuelErr : JsError := { code := some "MODEL_FUEL_EXHAUSTED", message := "model fuel exhausted" }

/-- The error thrown by `packageEntryFailure`. -/
def packageEntryFailureErr (id : String) (details : Option String) : JsError :=
  { code := some ERR_RESOLVE_PACKAGE_ENTRY_FAIL
    message := "Failed to resolve entry for package \"" ++ id ++ "\". " ++
      "The package may have incorrect main/module/exports specified in its package.json" ++
      (match details with
       | some d => ": " ++ d
       | none => ".") }

/-- The error thrown by `resolveDeepImport` when an export map exists but
the subpath is not exposed (`relativeId` is `undefined` or empty at the
throw, and is interpolated into the message as JS would). -/
def subpathNotExportedErr (relativeId : Option String) (dir : String) : JsError :=
  { code := none
    message := "Package subpath '" ++
      (match relativeId with
       | some s => s
       | none => "undefined") ++
      "' is not defined by \"exports\" in " ++ pathJoin dir "package.json" ++ "." }

/-! ## Shared utilities of the package (modelled from the spec) -/

/-- Modelled from the spec: the query/hash postfix split -- the file part
is everything before the first `?` or `#`, the postfix is the rest. -/
def splitPostfixChars : List Char → List Char × List Char
  | [] => ([], [])
  | c :: cs =>
    if c == '?' || c == '#' then ([], c :: cs)
    else
      let fp := splitPostfixChars cs
      (c :: fp.1, fp.2)

/-- The shared utility `splitFileAndPostfix`. -/
def splitFileAndPostfix (s : String) : String × String :=
  let fp := splitPostfixChars s.data
  (String.mk fp.1, String.mk fp.2)

/-- The shared utility `cleanUrl`: strip the query/hash postfix. -/
def cleanUrl (s : String) : String := (splitFileAndPostfix s).1

/-- Modelled from the spec: dependency-storage membership (the path lies
inside an installed-dependencies directory), as a substring test. -/
def isInNodeModules (p : String) : Bool := strContainsStr p "node_modules"

/-- Modelled from the spec: the builtin-module classifier over the
configured builtin list, as membership. -/
def isBuiltin (builtins : List String) (id : String) : Bool := builtins.contains id

/-- Modelled from the spec: the bare-import pattern -- the specifier
starts with a word character or `@`, is not a drive-letter path, and has
no scheme separator later. -/
def bareImportTest (id : String) : Bool :=
  match id.data with
  | [] => false
  | c :: rest =>
    (c.isAlphanum || c == '_' || c == '@') &&
    !(c.isAlpha && rest.head? = some ':') &&
    !(strContainsStr (String.mk rest) "://")

/-- Modelled from the spec: the deep-import pattern -- `pkg/sub` or
`@scope/pkg/sub`; it yields the package name on a deep import. -/
def deepImportMatch (id : String) : Option String :=
  match id.data with
  | [] => none
  | c :: rest =>
    if c == '@' then
      let seg1 := rest.takeWhile (fun x => !(x == '/'))
      let rest1 := rest.drop seg1.length
      match rest1 with
      | '/' :: rest2 =>
        let seg2 := rest2.takeWhile (fun x => !(x == '/'))
        let rest3 := rest2.drop seg2.length
        match rest3 with
        | '/' :: _ =>
          if seg1.isEmpty || seg2.isEmpty then none
          else some (String.mk ('@' :: seg1 ++ '/' :: seg2))
        | _ => none
      | _ => none
    else
      let seg := rest.takeWhile (fun x => !(x == '/'))
      match rest.drop seg.length with
      | '/' :: _ => some (String.mk (c :: seg))
      | _ => none

/-- Modelled from the spec: extract the npm package name (first path
segment, or the first two for a scoped name; a scoped specifier without
a second segment has no name). -/
def getNpmPackageName (importPath : String) : Option String :=
  match splitSlash importPath.data with
  | [] => none
  | p0 :: rest =>
    if p0.head? = some '@' then
      match rest with
      | [] => none
      | p1 :: _ =>
        if p1.isEmpty then none else some (String.mk (p0 ++ '/' :: p1))
    else some (String.mk p0)

/-- POSIX `path.isAbsolute`. -/
def isAbsolute (p : String) : Bool := strStartsWith p "/"

/-- Modelled from the spec: the lightweight module-syntax heuristic over
the entry file text (detect import/export syntax). -/
def hasESMSyntax (code : String) : Bool :=
  strContainsStr code "import" || strContainsStr code "export"

/-! ## Pure pieces of the resolver -/

def knownTsOutputTest (url : String) : Bool :=
  strEndsWith url ".js" || strEndsWith url ".mjs" ||
  strEndsWith url ".cjs" || strEndsWith url ".jsx"

/-- Test `isPossibleTsOutput`: the compiled-output extension pattern. -/
def isPossibleTsOutput (url : String) : Bool := knownTsOutputTest url

/-- Function `getConditions`: substitute the placeholder condition, then append
`require` or `import`. -/
def getConditions (conditions : List String) (isProduction : Bool)
    (isRequire : Bool) : List String :=
  let resolvedConditions := conditions.map (fun condition =>
    if condition = DEV_PROD_CONDITION then
      (if isProduction then "production" else "development")
    else condition)
  if isRequire then resolvedConditions ++ ["require"]
  else resolvedConditions ++ ["import"]

/-- Modelled from the spec: the external conditional export/import
lookup library, specified only at its interface -- it returns the first
matched target for the requested subpath key, or nothing when the
subpath is not exposed.  The condition list selects branches inside the
map; the model represents map entries as already resolved for the active
condition list, so the condition argument is not further consumed. -/
def externalExportsResolve (ef : Option ExportsField) (key : String)
    (_conditions : List String) : Option String :=
  match ef with
  | none => none
  | some (.str s) => if key = "." then some s else none
  | some (.arr xs) => if key = "." then xs.head? else none
  | some (.obj entries) => slookup entries key

/-- Which of the two maps `resolveExportsOrImports` consults. -/
inductive ExpImpKind where
  | exportsK
  | importsK
deriving DecidableEq

/-- Function `resolveExportsOrImports` (the `imports` map is never consulted by
the call sites embedded here, so only the `exports` leg is modelled). -/
def resolveExportsOrImports (data : PackageJson) (key : String)
    (opts : InternalResolveOptions) (kind : ExpImpKind) : Option String :=
  let conditions := getConditions opts.conditions opts.isProduction opts.isRequire
  match kind with
  | .exportsK => externalExportsResolve data.exports key conditions
  | .importsK => none

/-- Helper `equalWithoutSuffix`. -/
def equalWithoutSuffix (path key suffix : String) : Bool :=
  strEndsWith key suffix && jsSliceNeg key (lenStr suffix) == path

/-- The per-key match test of `mapWithBrowserField` (exact normalized
equality, or equality dropping a trailing `.js` or `/index.js` from the
key). -/
def browserKeyTest (normalizedPath normalizedKey : String) : Bool :=
  normalizedPath == normalizedKey ||
  equalWithoutSuffix normalizedPath normalizedKey ".js" ||
  equalWithoutSuffix normalizedPath normalizedKey "/index.js"

def mapWithBrowserFieldLoop (normalizedPath : String) :
    List (String × BrowserMapVal) → Option BrowserMapVal
  | [] => none
  | (key, v) :: rest =>
    let normalizedKey := posixNormalize key
    if browserKeyTest normalizedPath normalizedKey then some v
    else mapWithBrowserFieldLoop normalizedPath rest

/-- Function `mapWithBrowserField`: map a relative path in the package dir through
the object-form browser field. -/
def mapWithBrowserField (relativePathInPkgDir : String)
    (map : List (String × BrowserMapVal)) : Option BrowserMapVal :=
  let normalizedPath := posixNormalize relativePathInPkgDir
  mapWithBrowserFieldLoop normalizedPath map

/-- The typed-source extension swap of `tryCleanFsResolve`: for a
compiled-output path, swap `js` for `ts` in the extension (and for a
plain `.js` also try the `.tsx` variant). -/
def tsSwapProbe (fs : Fsys) (file : String) (ps : Bool) : Option String :=
  let fileExt := posixExtname file
  let fileName := jsSliceNeg file (lenStr fileExt)
  truthyOpt (tryResolveRealFile fs (fileName ++ strReplaceFirst fileExt "js" "ts") ps) <|>
  (if fileExt = ".js" then truthyOpt (tryResolveRealFile fs (fileName ++ ".tsx") ps)
   else none)

/-- The prefixed probe of `tryCleanFsResolve`: the configured filename
prefix inserted before the basename, plain then extension-probed. -/
def prefixedProbe (fs : Fsys) (dirPath file tp : String)
    (extensions : List String) (ps : Bool) : Option String :=
  let prefixed := dirPath ++ "/" ++ tp ++ posixBasename file
  truthyOpt (tryResolveRealFile fs prefixed ps) <|>
  tryResolveRealFileWithExtensions fs prefixed extensions ps

/-- The extensions / ts-swap / prefixed-probe block of
`tryCleanFsResolve` (purely filesystem reads, no manifest recursion). -/
def cleanStep2 (fs : Fsys) (file : String)
    (opts : InternalResolveOptions) : Option String :=
  if isPossibleTsOutput file || !(opts.extensions == []) || jsTruthy opts.tryPrefix then
    if isDirectory fs (posixDirname file) then
      (if isPossibleTsOutput file then
        tsSwapProbe fs file opts.preserveSymlinks
      else none) <|>
      tryResolveRealFileWithExtensions fs file opts.extensions
        opts.preserveSymlinks <|>
      (match opts.tryPrefix with
       | some tp =>
         if tp != "" then
           prefixedProbe fs (posixDirname file) file tp opts.extensions
             opts.preserveSymlinks
         else none
       | none => none)
    else none
  else none

/-- The directory `index` (and prefixed index) fallback of
`tryCleanFsResolve`. -/
def indexStep (fs : Fsys) (dirPath : String)
    (opts : InternalResolveOptions) : Option String :=
  tryResolveRealFileWithExtensions fs (dirPath ++ "/index")
    opts.extensions opts.preserveSymlinks <|>
  (match opts.tryPrefix with
   | some tp =>
     if tp != "" then
       tryResolveRealFileWithExtensions fs (dirPath ++ "/" ++ tp ++ "index")
         opts.extensions opts.preserveSymlinks
     else none
   | none => none)

/-- The dependency-path `#` special case of `tryFsResolve`: inside
node_modules, when a `#` occurs before any `?`, the prefix up to the
query (keeping the `#` literally in the file name) is tried first;
yields that file part and the sliced-off remainder. -/
def hashBranchSplit (fsPath : String) : Option (String × String) :=
  match charIdx? fsPath.data '#' with
  | none => none
  | some hashIndex =>
    if isInNodeModules fsPath then
      match charIdx? fsPath.data '?' with
      | none => some (fsPath, "")
      | some queryIndex =>
        if hashIndex < queryIndex then
          some (takeStr fsPath queryIndex, dropStr fsPath queryIndex)
        else none
    else none

/-- The object-form browser remap of a root entry candidate
(`entry = mapWithBrowserField(entry, browserField) || entry`): a falsy
mapping (`false` or the empty string) keeps the original candidate. -/
def remapBrowserEntry (opts : InternalResolveOptions) (data : PackageJson)
    (entry : String) : String :=
  match data.browser with
  | .obj m =>
    if opts.mainFields.contains "browser" then
      match mapWithBrowserField entry m with
      | some (.str s) => if s != "" then s else entry
      | some .fls => entry
      | none => entry
    else entry
  | _ => entry

mutual

/-- Function `tryFsResolve`: handle the node_modules `#` special case (a truthy
hit returns the clean result with the remainder reattached), otherwise
split off the query/hash postfix, resolve the file part and reattach the
postfix (`postSplitResolve`). -/
def tryFsResolve : Nat → Fsys → PkgEnv → String → InternalResolveOptions →
    Bool → Bool → Except JsError (Option String)
  | 0, _, _, _, _, _, _ => .error outOfFuelErr
  | fuel + 1, fs, env, fsPath, opts, tryIndex, skipPackageJson =>
    match hashBranchSplit fsPath with
    | some fp =>
      match tryCleanFsResolve fuel fs env fp.1 opts tryIndex skipPackageJson with
      | .error e => .error e
      | .ok res =>
        match truthyOpt res with
        | some r => .ok (some (r ++ fp.2))
        | none => postSplitResolve fuel fs env fsPath opts tryIndex skipPackageJson
    | none => postSplitResolve fuel fs env fsPath opts tryIndex skipPackageJson

/-- The postfix-splitting tail of `tryFsResolve`: split at the first
query/hash, clean-resolve the file part, reattach the postfix on a
truthy result. -/
def postSplitResolve : Nat → Fsys → PkgEnv → String →
    InternalResolveOptions → Bool → Bool → Except JsError (Option String)
  | 0, _, _, _, _, _, _ => .error outOfFuelErr
  | fuel + 1, fs, env, fsPath, opts, tryIndex, skipPackageJson =>
    match tryCleanFsResolve fuel fs env (splitFileAndPostfix fsPath).1 opts
        tryIndex skipPackageJson with
    | .error e => .error e
    | .ok res =>
      match truthyOpt res with
      | some r => .ok (some (r ++ (splitFileAndPostfix fsPath).2))
      | none => .ok none

/-- Function `tryCleanFsResolve`: a truthy real-file hit returns immediately;
otherwise the extension / ts-swap / prefix / directory machinery of
`tryCleanRest` runs, knowing whether the path is a directory. -/
def tryCleanFsResolve : Nat → Fsys → PkgEnv → String →
    InternalResolveOptions → Bool → Bool → Except JsError (Option String)
  | 0, _, _, _, _, _, _ => .error outOfFuelErr
  | fuel + 1, fs, env, file, opts, tryIndex, skipPackageJson =>
    match tryResolveRealFileOrType fs file opts.preserveSymlinks with
    | some (.file p) =>
      if p != "" then .ok (some p)
      else tryCleanRest fuel fs env file opts tryIndex skipPackageJson false
    | some .directory =>
      tryCleanRest fuel fs env file opts tryIndex skipPackageJson true
    | none => tryCleanRest fuel fs env file opts tryIndex skipPackageJson false

/-- The non-real-file part of `tryCleanFsResolve`: extension / ts-swap /
prefix probing, then (for directories, when the index fallback is
allowed) manifest entry resolution -- swallowing entry failures and
missing-manifest errors -- and the `index` fallback. -/
def tryCleanRest : Nat → Fsys → PkgEnv → String →
    InternalResolveOptions → Bool → Bool → Bool → Except JsError (Option String)
  | 0, _, _, _, _, _, _, _ => .error outOfFuelErr
  | fuel + 1, fs, env, file, opts, tryIndex, skipPackageJson, isDirResult =>
    match cleanStep2 fs file opts with
    | some res => .ok (some res)
    | none =>
      if tryIndex && isDirResult then
        if !skipPackageJson && existsSyncFs fs (file ++ "/package.json") then
          match slookup env.byJsonPath (file ++ "/package.json") with
          | some pkg =>
            match resolvePackageEntry fuel fs env file pkg opts with
            | .ok v => .ok v
            | .error e =>
              if e.code = some ERR_RESOLVE_PACKAGE_ENTRY_FAIL ∨
                  e.code = some "ENOENT" then
                .ok (indexStep fs file opts)
              else .error e
          | none => .ok (indexStep fs file opts)
        else .ok (indexStep fs file opts)
      else .ok none

/-- Function `resolvePackageEntry`: the resolved-cache fast path, then the
exports / main-fields / `main` / index-fallback candidate machinery,
converting any internal failure into a package-entry failure. -/
def resolvePackageEntry : Nat → Fsys → PkgEnv → String → PackageData →
    InternalResolveOptions → Except JsError (Option String)
  | 0, _, _, _, _, _ => .error outOfFuelErr
  | fuel + 1, fs, env, id, pkg, opts =>
    match (slookup pkg.cache ".").filter (fun v => v != "") with
    | some cached => .ok (some (cached ++ (splitFileAndPostfix id).2))
    | none =>
      match entryTryBody fuel fs env pkg opts (splitFileAndPostfix id).2 with
      | .ok (some r) => .ok (some r)
      | .ok none => .error (packageEntryFailureErr id none)
      | .error e => .error (packageEntryFailureErr id (some e.message))

/-- The `try` body of `resolvePackageEntry`: exports-map entry, then the
main-fields loop, then the bare `main` field, then the conventional
index fallbacks, each candidate probed by `entryPointsLoop`. -/
def entryTryBody : Nat → Fsys → PkgEnv → PackageData →
    InternalResolveOptions → String → Except JsError (Option String)
  | 0, _, _, _, _, _ => .error outOfFuelErr
  | fuel + 1, fs, env, pkg, opts, pfx =>
    let ep1 : Option String :=
      if exportsTruthy pkg.data.exports then
        resolveExportsOrImports pkg.data "." opts ExpImpKind.exportsK
      else none
    match
      (if jsTruthy ep1 then Except.ok ep1
       else mainFieldsLoop fuel fs env pkg opts ep1 opts.mainFields) with
    | .error e => .error e
    | .ok ep2 =>
      let ep3 := if jsTruthy ep2 then ep2
        else slookup pkg.data.strFields "main"
      let entryPoints :=
        if jsTruthy ep3 then [ep3.getD ""]
        else ["index.js", "index.json", "index.node"]
      entryPointsLoop fuel fs env pkg opts pfx entryPoints

/-- The `for (let entry of entryPoints)` loop of `resolvePackageEntry`:
discard stylesheet-mismatched candidates, remap through the object-form
browser field, probe the joined path, reattach the postfix on the first
hit. -/
def entryPointsLoop : Nat → Fsys → PkgEnv → PackageData →
    InternalResolveOptions → String → List String →
    Except JsError (Option String)
  | 0, _, _, _, _, _, _ => .error outOfFuelErr
  | _ + 1, _, _, _, _, _, [] => .ok none
  | fuel + 1, fs, env, pkg, opts, pfx, entry :: rest =>
    let pair :=
      if opts.mainFields.head? = some "sass" &&
          !(opts.extensions.contains (posixExtname entry)) then
        ("", true)
      else (remapBrowserEntry opts pkg.data entry, false)
    match tryFsResolve fuel fs env (pathJoin pkg.dir pair.1) opts true pair.2 with
    | .error e => .error e
    | .ok res =>
      match truthyOpt res with
      | some resolvedEntryPoint => .ok (some (resolvedEntryPoint ++ pfx))
      | none => entryPointsLoop fuel fs env pkg opts pfx rest

/-- The `for (const field of options.mainFields)` loop of
`resolvePackageEntry`: the browser field goes through the browser-entry
heuristic (breaking only on a truthy result, but keeping the assigned
value), any other string-valued field breaks immediately. -/
def mainFieldsLoop : Nat → Fsys → PkgEnv → PackageData →
    InternalResolveOptions → Option String → List String →
    Except JsError (Option String)
  | 0, _, _, _, _, _, _ => .error outOfFuelErr
  | _ + 1, _, _, _, _, acc, [] => .ok acc
  | fuel + 1, fs, env, pkg, opts, acc, field :: rest =>
    if field = "browser" then
      match tryResolveBrowserEntry fuel fs env pkg.dir pkg.data opts with
      | .error e => .error e
      | .ok bv =>
        if jsTruthy bv then .ok bv
        else mainFieldsLoop fuel fs env pkg opts bv rest
    else
      match slookup pkg.data.strFields field with
      | some s => .ok (some s)
      | none => mainFieldsLoop fuel fs env pkg opts acc rest

/-- Function `tryResolveBrowserEntry`: the browser entry, with the ESM-sniffing
tiebreak against a distinct `module` field outside require mode. -/
def tryResolveBrowserEntry : Nat → Fsys → PkgEnv → String → PackageJson →
    InternalResolveOptions → Except JsError (Option String)
  | 0, _, _, _, _, _ => .error outOfFuelErr
  | fuel + 1, fs, env, dir, data, opts =>
    let browserEntry : Option String :=
      match data.browser with
      | .str s => some s
      | .obj m =>
        match slookup m "." with
        | some (.str s) => some s
        | some .fls => none
        | none => none
      | .absent => none
    match browserEntry with
    | some be =>
      if be != "" then
        match slookup data.strFields "module" with
        | some m =>
          if !opts.isRequire && opts.mainFields.contains "module" && m != be then
            match tryFsResolve fuel fs env (pathJoin dir be) opts true false with
            | .error e => .error e
            | .ok res =>
              match truthyOpt res with
              | some resolvedBrowserEntry =>
                if hasESMSyntax (readFileFs fs resolvedBrowserEntry) then
                  .ok (some be)
                else .ok (some m)
              | none => .ok none
          else .ok (some be)
        | none => .ok (some be)
      else .ok none
    | none => .ok none

end

/-- The filesystem stage of `resolveDeepImport`: join the mapped relative
id to the package dir and resolve, with the directory-index fallback
suppressed when an export map was present. -/
def deepFsStage (fuel : Nat) (fs : Fsys) (env : PkgEnv) (pkg : PackageData)
    (opts : InternalResolveOptions) (hasExportsField : Bool)
    (relativeId : Option String) : Except JsError (Option String) :=
  match relativeId with
  | some rid =>
    if rid != "" then
      match tryFsResolve fuel fs env (pathJoin pkg.dir rid) opts
          (!hasExportsField) false with
      | .error e => .error e
      | .ok r => .ok (truthyOpt r)
    else .ok none
  | none => .ok none

/-- Function `resolveDeepImport`: cache fast path; exports-map lookup (a missing
subpath is a hard `SubpathNotExported` error); otherwise object-form
browser remapping (`false` yields the browser-external sentinel); then
the filesystem stage. -/
def resolveDeepImport (fuel : Nat) (fs : Fsys) (env : PkgEnv) (id : String)
    (pkg : PackageData) (opts : InternalResolveOptions) :
    Except JsError (Option String) :=
  match (slookup pkg.cache id).filter (fun v => v != "") with
  | some cache => .ok (some cache)
  | none =>
    if exportsTruthy pkg.data.exports then
      let fp := splitFileAndPostfix id
      let relativeId : Option String :=
        match pkg.data.exports with
        | some (.obj _) =>
          match resolveExportsOrImports pkg.data fp.1 opts ExpImpKind.exportsK with
          | some exportsId => some (exportsId ++ fp.2)
          | none => none
        | _ => none
      match relativeId with
      | some rid =>
        if rid != "" then deepFsStage fuel fs env pkg opts true (some rid)
        else .error (subpathNotExportedErr (some rid) pkg.dir)
      | none => .error (subpathNotExportedErr none pkg.dir)
    else
      match pkg.data.browser with
      | .obj m =>
        if opts.mainFields.contains "browser" then
          let fp := splitFileAndPostfix id
          match mapWithBrowserField fp.1 m with
          | some (.str mapped) =>
            if mapped != "" then
              deepFsStage fuel fs env pkg opts false (some (mapped ++ fp.2))
            else deepFsStage fuel fs env pkg opts false (some id)
          | some BrowserMapVal.fls => .ok (some browserExternalId)
          | none => deepFsStage fuel fs env pkg opts false (some id)
        else deepFsStage fuel fs env pkg opts false (some id)
      | _ => deepFsStage fuel fs env pkg opts false (some id)

/-! ## The bare specifier orchestrator -/

/-- The result surface of `tryNodeResolve` (the fields the embedded code
produces). -/
structure PartialResolvedId where
  id : String
  moduleSideEffects : Option Bool := none
  external : Bool := false
deriving DecidableEq

def nullByteStr : String := "\x00"

/-- The base directory choice of `tryNodeResolve`: project root for
deduped packages, else the importer's directory when the importer is an
absolute existing path (or a stylesheet wildcard), else project root. -/
def basedirFor (fs : Fsys) (opts : InternalResolveOptions)
    (importer : Option String) (pkgId : String) : String :=
  if opts.dedupe.contains pkgId then opts.root
  else
    match importer with
    | some imp =>
      if isAbsolute imp && (strEndsWith imp "*" || existsSyncFs fs (cleanUrl imp))
      then posixDirname imp
      else opts.root
    | none => opts.root

/-- The self-reference check of `tryNodeResolve`: the nearest manifest
upward from the base directory is reused only when it declares an export
map and its name is the requested package. -/
def selfPkgFor (env : PkgEnv) (opts : InternalResolveOptions)
    (id pkgId basedir : String) : Option PackageData :=
  if !isBuiltin opts.builtins id && !strContainsStr id nullByteStr &&
      bareImportTest id then
    match slookup env.nearest basedir with
    | some selfPackageData =>
      if exportsTruthy selfPackageData.data.exports &&
          selfPackageData.data.name == some pkgId then
        some selfPackageData
      else none
    | none => none
  else none

/-- The choice `selfPkg || resolvePackageData(pkgId, basedir, ...)`. -/
def resolvedPkgFor (env : PkgEnv) (opts : InternalResolveOptions)
    (id pkgId basedir : String) : Option PackageData :=
  match selfPkgFor env opts id pkgId basedir with
  | some p => some p
  | none => plookup env.byNameBase (pkgId, basedir)

/-- The package id of a specifier: the deep-import package name, or the
postfix-stripped specifier itself. -/
def pkgIdFor (id : String) : String :=
  match deepImportMatch id with
  | some m => m
  | none => cleanUrl id

/-- Function `tryNodeResolve`, modelled for the call with no deps optimizer
attached and externalization off (the pre-optimization subsystem and the
externalization policy are external collaborators; with neither present
the tail returns the resolved id, with side-effect metadata attached for
non-scan builds). -/
def tryNodeResolve (fuel : Nat) (fs : Fsys) (env : PkgEnv) (id : String)
    (importer : Option String) (opts : InternalResolveOptions) :
    Except JsError (Option PartialResolvedId) :=
  let deepMatch := deepImportMatch id
  let pkgId := pkgIdFor id
  let basedir := basedirFor fs opts importer pkgId
  match resolvedPkgFor env opts id pkgId basedir with
  | none =>
    if basedir != opts.root && !isBuiltin opts.builtins id &&
        !strContainsStr id nullByteStr && bareImportTest id then
      match slookup env.nearestMain basedir with
      | some mainPkgData =>
        let mainPkg := mainPkgData.data
        match getNpmPackageName id with
        | some pkgName =>
          if jsTruthy (slookup mainPkg.peerDependencies pkgName) &&
              ((slookup mainPkg.peerDependenciesMeta pkgName).getD false) then
            .ok (some { id := optionalPeerDepId ++ ":" ++ id ++ ":" ++
              (mainPkg.name.getD "undefined") })
          else .ok none
        | none => .ok none
      | none => .ok none
    else .ok none
  | some pkg =>
    let unresolvedId := match deepMatch with
      | some _ => "." ++ dropStr id (lenStr pkgId)
      | none => id
    match
      (match deepMatch with
       | some _ => resolveDeepImport fuel fs env unresolvedId pkg opts
       | none => resolvePackageEntry fuel fs env unresolvedId pkg opts) with
    | .error e => .error e
    | .ok res =>
      match truthyOpt res with
      | none => .ok none
      | some resolved =>
        if !opts.idOnly && (!opts.scan && opts.isBuild) then
          .ok (some { id := resolved
                      moduleSideEffects := some (pkg.hasSideEffects resolved) })
        else .ok (some { id := resolved })

/-! ## Basic lemmas -/

theorem strAppendNil (s : String) : s ++ "" = s := by
  cases s with
  | mk d => show String.mk (d ++ []) = String.mk d; rw [List.append_nil]

theorem strAppendAssoc (a b c : String) : a ++ b ++ c = a ++ (b ++ c) := by
  cases a with
  | mk da =>
    cases b with
    | mk db =>
      cases c with
      | mk dc =>
        show String.mk (da ++ db ++ dc) = String.mk (da ++ (db ++ dc))
        rw [List.append_assoc]

theorem splitPostfixChars_fst_clean (cs : List Char) :
    ∀ c ∈ (splitPostfixChars cs).1, (c == '?' || c == '#') = false := by
  induction cs with
  | nil => intro c hc; simp [splitPostfixChars] at hc
  | cons x xs ih =>
    intro c hc
    by_cases hx : (x == '?' || x == '#') = true
    · simp [splitPostfixChars, hx] at hc
    · simp only [splitPostfixChars, hx, Bool.false_eq_true, if_false] at hc
      simp only [List.mem_cons] at hc
      rcases hc with rfl | hc
      · simpa using hx
      · exact ih c hc

theorem splitPostfixChars_clean_eq (cs : List Char)
    (h : ∀ c ∈ cs, (c == '?' || c == '#') = false) :
    splitPostfixChars cs = (cs, []) := by
  induction cs with
  | nil => rfl
  | cons x xs ih =>
    have hx := h x (by simp)
    simp only [splitPostfixChars, hx, Bool.false_eq_true, if_false]
    rw [ih (fun c hc => h c (by simp [hc]))]

theorem charIdx?_none (l : List Char) (t : Char)
    (h : ∀ c ∈ l, (c == t) = false) : charIdx? l t = none := by
  induction l with
  | nil => rfl
  | cons x xs ih =>
    have hx := h x (by simp)
    simp only [charIdx?, hx, Bool.false_eq_true, if_false]
    rw [ih (fun c hc => h c (by simp [hc]))]
    rfl

theorem splitFileAndPostfix_fst_idem (s : String) :
    splitFileAndPostfix (splitFileAndPostfix s).1 =
      ((splitFileAndPostfix s).1, "") := by
  show splitFileAndPostfix (String.mk (splitPostfixChars s.data).1) = _
  have hclean := splitPostfixChars_fst_clean s.data
  simp only [splitFileAndPostfix]
  rw [splitPostfixChars_clean_eq _ hclean]

theorem hashBranchSplit_split_fst (s : String) :
    hashBranchSplit (splitFileAndPostfix s).1 = none := by
  have hclean := splitPostfixChars_fst_clean s.data
  have hhash : ∀ c ∈ ((splitFileAndPostfix s).1).data, (c == '#') = false := by
    intro c hc
    have := hclean c hc
    revert this
    cases hcq : (c == '?') <;> cases hch : (c == '#') <;> simp [hcq, hch]
  simp only [hashBranchSplit]
  rw [charIdx?_none _ _ hhash]

/-- Error classification invariant: the filesystem resolvers only ever
fail with the fuel artifact, and `resolvePackageEntry` only ever fails
with the fuel artifact or a package-entry failure for its own id. -/
theorem resolverErrInv (fuel : Nat) :
    (∀ fs env fsPath opts ti sp e,
      tryFsResolve fuel fs env fsPath opts ti sp = .error e → e = outOfFuelErr)
  ∧ (∀ fs env fsPath opts ti sp e,
      postSplitResolve fuel fs env fsPath opts ti sp = .error e → e = outOfFuelErr)
  ∧ (∀ fs env file opts ti sp e,
      tryCleanFsResolve fuel fs env file opts ti sp = .error e → e = outOfFuelErr)
  ∧ (∀ fs env file opts ti sp dr e,
      tryCleanRest fuel fs env file opts ti sp dr = .error e → e = outOfFuelErr)
  ∧ (∀ fs env id pkg opts e,
      resolvePackageEntry fuel fs env id pkg opts = .error e →
        e = outOfFuelErr ∨ ∃ d, e = packageEntryFailureErr id d)
  ∧ (∀ fs env pkg opts pfx e,
      entryTryBody fuel fs env pkg opts pfx = .error e → e = outOfFuelErr)
  ∧ (∀ fs env pkg opts pfx entries e,
      entryPointsLoop fuel fs env pkg opts pfx entries = .error e → e = outOfFuelErr)
  ∧ (∀ fs env pkg opts acc fields e,
      mainFieldsLoop fuel fs env pkg opts acc fields = .error e → e = outOfFuelErr)
  ∧ (∀ fs env dir data opts e,
      tryResolveBrowserEntry fuel fs env dir data opts = .error e → e = outOfFuelErr) := by
  induction fuel with
  | zero =>
    refine ⟨?_, ?_, ?_, ?_, ?_, ?_, ?_, ?_, ?_⟩
    · intro fs env fsPath opts ti sp e h
      rw [tryFsResolve] at h; cases h; rfl
    · intro fs env fsPath opts ti sp e h
      rw [postSplitResolve] at h; cases h; rfl
    · intro fs env file opts ti sp e h
      rw [tryCleanFsResolve] at h; cases h; rfl
    · intro fs env file opts ti sp dr e h
      rw [tryCleanRest] at h; cases h; rfl
    · intro fs env id pkg opts e h
      rw [resolvePackageEntry] at h; cases h; exact Or.inl rfl
    · intro fs env pkg opts pfx e h
      rw [entryTryBody] at h; cases h; rfl
    · intro fs env pkg opts pfx entries e h
      rw [entryPointsLoop] at h; cases h; rfl
    · intro fs env pkg opts acc fields e h
      rw [mainFieldsLoop] at h; cases h; rfl
    · intro fs env dir data opts e h
      rw [tryResolveBrowserEntry] at h; cases h; rfl
  | succ n ih =>
    obtain ⟨ihF, ihPS, ihC, ihR, ihP, ihT, ihL, ihM, ihB⟩ := ih
    refine ⟨?_, ?_, ?_, ?_, ?_, ?_, ?_, ?_, ?_⟩
    · intro fs env fsPath opts ti sp e h
      rw [tryFsResolve] at h
      split at h
      next fp _ =>
        split at h
        next e' heq => cases h; exact ihC _ _ _ _ _ _ _ heq
        next res heq =>
          split at h
          next r heq2 => exact Except.noConfusion h
          next heq2 => exact ihPS _ _ _ _ _ _ _ h
      next => exact ihPS _ _ _ _ _ _ _ h
    · intro fs env fsPath opts ti sp e h
      rw [postSplitResolve] at h
      split at h
      next e' heq => cases h; exact ihC _ _ _ _ _ _ _ heq
      next res heq =>
        split at h
        next r heq2 => exact Except.noConfusion h
        next heq2 => exact Except.noConfusion h
    · intro fs env file opts ti sp e h
      rw [tryCleanFsResolve] at h
      split at h
      next p _ =>
        split at h
        · exact Except.noConfusion h
        · exact ihR _ _ _ _ _ _ _ _ h
      next => exact ihR _ _ _ _ _ _ _ _ h
      next => exact ihR _ _ _ _ _ _ _ _ h
    · intro fs env file opts ti sp dr e h
      rw [tryCleanRest] at h
      split at h
      next res _ => exact Except.noConfusion h
      next =>
        split at h
        · split at h
          · split at h
            next pkg _ =>
              split at h
              next v heq => exact Except.noConfusion h
              next e' heq =>
                split at h
                next => exact Except.noConfusion h
                next hcond =>
                  cases h
                  rcases ihP _ _ _ _ _ _ heq with rfl | ⟨d, rfl⟩
                  · rfl
                  · exact absurd (Or.inl rfl) hcond
            next => exact Except.noConfusion h
          · exact Except.noConfusion h
        · exact Except.noConfusion h
    · intro fs env id pkg opts e h
      rw [resolvePackageEntry] at h
      split at h
      next cached _ => exact Except.noConfusion h
      next =>
        split at h
        next r heq => exact Except.noConfusion h
        next heq => cases h; exact Or.inr ⟨none, rfl⟩
        next e' heq => cases h; exact Or.inr ⟨some e'.message, rfl⟩
    · intro fs env pkg opts pfx e h
      rw [entryTryBody] at h
      dsimp only at h
      split at h
      next e' heq =>
        cases h
        split at heq <;> split at heq <;>
          first
            | exact Except.noConfusion heq
            | exact ihM _ _ _ _ _ _ _ heq
      next ep2 heq => exact ihL _ _ _ _ _ _ _ h
    · intro fs env pkg opts pfx entries e h
      match entries with
      | [] => rw [entryPointsLoop] at h; exact Except.noConfusion h
      | entry :: rest =>
        rw [entryPointsLoop] at h
        split at h
        next e' heq => cases h; exact ihF _ _ _ _ _ _ _ heq
        next res heq =>
          split at h
          next r heq2 => exact Except.noConfusion h
          next heq2 => exact ihL _ _ _ _ _ _ _ h
    · intro fs env pkg opts acc fields e h
      match fields with
      | [] => rw [mainFieldsLoop] at h; exact Except.noConfusion h
      | field :: rest =>
        rw [mainFieldsLoop] at h
        split at h
        · split at h
          next e' heq => cases h; exact ihB _ _ _ _ _ _ heq
          next bv heq =>
            split at h
            next => exact Except.noConfusion h
            next => exact ihM _ _ _ _ _ _ _ h
        · split at h
          next s heq => exact Except.noConfusion h
          next heq => exact ihM _ _ _ _ _ _ _ h
    · intro fs env dir data opts e h
      rw [tryResolveBrowserEntry] at h
      split at h
      next be _ =>
        split at h
        · split at h
          next m heq =>
            split at h
            · split at h
              next e' heq2 => cases h; exact ihF _ _ _ _ _ _ _ heq2
              next res heq2 =>
                split at h
                next r heq3 => split at h <;> exact Except.noConfusion h
                next heq3 => exact Except.noConfusion h
            · exact Except.noConfusion h
          next => exact Except.noConfusion h
        · exact Except.noConfusion h
      next => exact Except.noConfusion h

theorem truthyOpt_some {o : Option String} {r : String}
    (h : truthyOpt o = some r) : o = some r := by
  unfold truthyOpt at h
  split at h
  · exact h
  · exact Option.noConfusion h

theorem strDataAppend (a b : String) : (a ++ b).data = a.data ++ b.data := by
  cases a; cases b; rfl

theorem isFileFs_mem {fs : Fsys} {p : String} (h : isFileFs fs p = true) :
    p ∈ fs.files := by
  simpa [isFileFs] using h

theorem tryResolveRealFile_mem {fs : Fsys} {f : String} {ps : Bool} {r : String}
    (h : tryResolveRealFile fs f ps = some r) : r ∈ fs.files := by
  unfold tryResolveRealFile at h
  split at h
  · cases h; exact isFileFs_mem (by assumption)
  · exact Option.noConfusion h

theorem tryResolveRealFileWithExtensions_mem {fs : Fsys} {f : String}
    {exts : List String} {ps : Bool} {r : String}
    (h : tryResolveRealFileWithExtensions fs f exts ps = some r) : r ∈ fs.files := by
  induction exts with
  | nil => exact Option.noConfusion h
  | cons x xs ih =>
    rw [tryResolveRealFileWithExtensions] at h
    rcases (Option.orElse_eq_some _ _ _).mp h with h1 | ⟨_, h2⟩
    · exact tryResolveRealFile_mem (truthyOpt_some h1)
    · exact ih h2

theorem tsSwapProbe_mem {fs : Fsys} {file : String} {ps : Bool} {r : String}
    (h : tsSwapProbe fs file ps = some r) : r ∈ fs.files := by
  unfold tsSwapProbe at h
  rcases (Option.orElse_eq_some _ _ _).mp h with h1 | ⟨_, h2⟩
  · exact tryResolveRealFile_mem (truthyOpt_some h1)
  · split at h2
    · exact tryResolveRealFile_mem (truthyOpt_some h2)
    · exact Option.noConfusion h2

theorem prefixedProbe_mem {fs : Fsys} {dirPath file tp : String}
    {extensions : List String} {ps : Bool} {r : String}
    (h : prefixedProbe fs dirPath file tp extensions ps = some r) :
    r ∈ fs.files := by
  unfold prefixedProbe at h
  rcases (Option.orElse_eq_some _ _ _).mp h with h1 | ⟨_, h2⟩
  · exact tryResolveRealFile_mem (truthyOpt_some h1)
  · exact tryResolveRealFileWithExtensions_mem h2

theorem cleanStep2_mem {fs : Fsys} {file : String}
    {opts : InternalResolveOptions} {r : String}
    (h : cleanStep2 fs file opts = some r) : r ∈ fs.files := by
  unfold cleanStep2 at h
  split at h
  · split at h
    · rcases (Option.orElse_eq_some _ _ _).mp h with h1 | ⟨_, h2⟩
      · split at h1
        · exact tsSwapProbe_mem h1
        · exact Option.noConfusion h1
      · rcases (Option.orElse_eq_some _ _ _).mp h2 with h3 | ⟨_, h4⟩
        · exact tryResolveRealFileWithExtensions_mem h3
        · split at h4
          next tp =>
            split at h4
            · exact prefixedProbe_mem h4
            · exact Option.noConfusion h4
          next => exact Option.noConfusion h4
    · exact Option.noConfusion h
  · exact Option.noConfusion h

theorem indexStep_mem {fs : Fsys} {dirPath : String}
    {opts : InternalResolveOptions} {r : String}
    (h : indexStep fs dirPath opts = some r) : r ∈ fs.files := by
  unfold indexStep at h
  rcases (Option.orElse_eq_some _ _ _).mp h with h1 | ⟨_, h2⟩
  · exact tryResolveRealFileWithExtensions_mem h1
  · split at h2
    next tp =>
      split at h2
      · exact tryResolveRealFileWithExtensions_mem h2
      · exact Option.noConfusion h2
    next => exact Option.noConfusion h2

/-- All resolved-subpath caches reachable through `loadPackageData` are
empty (the invariant under which cached values cannot fabricate
results). -/
def envCleanCaches (env : PkgEnv) : Prop :=
  ∀ k p, slookup env.byJsonPath k = some p → p.cache = []

theorem tryResolveRealFileOrType_file_mem {fs : Fsys} {f : String} {ps : Bool}
    {p : String} (h : tryResolveRealFileOrType fs f ps = some (.file p)) :
    p ∈ fs.files := by
  unfold tryResolveRealFileOrType at h
  split at h
  · cases h; exact isFileFs_mem (by assumption)
  · split at h
    · exact FileKind.noConfusion (Option.some.inj h)
    · exact Option.noConfusion h

/-- Success classification invariant: under empty resolved caches, every
successful result of the filesystem resolvers is an existing file path
with a (possibly empty) postfix tail appended. -/
theorem resolverOkInv (fuel : Nat) :
    (∀ fs env fsPath opts ti sp r, envCleanCaches env →
      tryFsResolve fuel fs env fsPath opts ti sp = .ok (some r) →
        ∃ f ∈ fs.files, ∃ t, r = f ++ t)
  ∧ (∀ fs env fsPath opts ti sp r, envCleanCaches env →
      postSplitResolve fuel fs env fsPath opts ti sp = .ok (some r) →
        ∃ f ∈ fs.files, ∃ t, r = f ++ t)
  ∧ (∀ fs env file opts ti sp r, envCleanCaches env →
      tryCleanFsResolve fuel fs env file opts ti sp = .ok (some r) →
        ∃ f ∈ fs.files, ∃ t, r = f ++ t)
  ∧ (∀ fs env file opts ti sp dr r, envCleanCaches env →
      tryCleanRest fuel fs env file opts ti sp dr = .ok (some r) →
        ∃ f ∈ fs.files, ∃ t, r = f ++ t)
  ∧ (∀ fs env id pkg opts r, envCleanCaches env → pkg.cache = [] →
      resolvePackageEntry fuel fs env id pkg opts = .ok (some r) →
        ∃ f ∈ fs.files, ∃ t, r = f ++ t)
  ∧ (∀ fs env pkg opts pfx r, envCleanCaches env →
      entryTryBody fuel fs env pkg opts pfx = .ok (some r) →
        ∃ f ∈ fs.files, ∃ t, r = f ++ t)
  ∧ (∀ fs env pkg opts pfx entries r, envCleanCaches env →
      entryPointsLoop fuel fs env pkg opts pfx entries = .ok (some r) →
        ∃ f ∈ fs.files, ∃ t, r = f ++ t) := by
  induction fuel with
  | zero =>
    refine ⟨?_, ?_, ?_, ?_, ?_, ?_, ?_⟩ <;>
      · intros
        first
          | exact absurd (by assumption : Except.error outOfFuelErr =
              Except.ok _) (by exact fun hx => Except.noConfusion hx)
  | succ n ih =>
    obtain ⟨ihF, ihPS, ihC, ihR, ihP, ihT, ihL⟩ := ih
    refine ⟨?_, ?_, ?_, ?_, ?_, ?_, ?_⟩
    · intro fs env fsPath opts ti sp r henv h
      rw [tryFsResolve] at h
      split at h
      next fp _ =>
        split at h
        next e' heq => exact Except.noConfusion h
        next res heq =>
          split at h
          next r0 heq2 =>
            cases h
            rw [truthyOpt_some heq2] at heq
            obtain ⟨f, hf, t, rfl⟩ := ihC _ _ _ _ _ _ _ henv heq
            exact ⟨f, hf, t ++ fp.2, strAppendAssoc f t fp.2⟩
          next heq2 => exact ihPS _ _ _ _ _ _ _ henv h
      next => exact ihPS _ _ _ _ _ _ _ henv h
    · intro fs env fsPath opts ti sp r henv h
      rw [postSplitResolve] at h
      split at h
      next e' heq => exact Except.noConfusion h
      next res heq =>
        split at h
        next r0 heq2 =>
          cases h
          rw [truthyOpt_some heq2] at heq
          obtain ⟨f, hf, t, rfl⟩ := ihC _ _ _ _ _ _ _ henv heq
          exact ⟨f, hf, t ++ (splitFileAndPostfix fsPath).2,
            strAppendAssoc f t (splitFileAndPostfix fsPath).2⟩
        next heq2 => exact Option.noConfusion (Except.ok.inj h)
    · intro fs env file opts ti sp r henv h
      rw [tryCleanFsResolve] at h
      split at h
      next p heq =>
        split at h
        · cases h
          exact ⟨r, tryResolveRealFileOrType_file_mem heq, "", (strAppendNil r).symm⟩
        · exact ihR _ _ _ _ _ _ _ _ henv h
      next => exact ihR _ _ _ _ _ _ _ _ henv h
      next => exact ihR _ _ _ _ _ _ _ _ henv h
    · intro fs env file opts ti sp dr r henv h
      rw [tryCleanRest] at h
      split at h
      next res heq =>
        cases h
        exact ⟨r, cleanStep2_mem heq, "", (strAppendNil r).symm⟩
      next =>
        split at h
        · split at h
          · split at h
            next pkg hpkg =>
              split at h
              next v heq =>
                cases h
                exact ihP _ _ _ _ _ _ henv (henv _ _ hpkg) heq
              next e' heq =>
                split at h
                next =>
                  exact ⟨r, indexStep_mem (Except.ok.inj h), "",
                    (strAppendNil r).symm⟩
                next hcond => exact Except.noConfusion h
            next =>
              exact ⟨r, indexStep_mem (Except.ok.inj h), "",
                (strAppendNil r).symm⟩
          · exact ⟨r, indexStep_mem (Except.ok.inj h), "",
              (strAppendNil r).symm⟩
        · exact Option.noConfusion (Except.ok.inj h)
    · intro fs env id pkg opts r henv hcache h
      rw [resolvePackageEntry] at h
      rw [hcache] at h
      rw [show (slookup ([] : List (String × String)) ".").filter
          (fun v => v != "") = none from rfl] at h
      dsimp only at h
      split at h
      next r0 heq => cases h; exact ihT _ _ _ _ _ _ henv heq
      next heq => exact Except.noConfusion h
      next e' heq => exact Except.noConfusion h
    · intro fs env pkg opts pfx r henv h
      rw [entryTryBody] at h
      dsimp only at h
      split at h
      next e' heq => exact Except.noConfusion h
      next ep2 heq => exact ihL _ _ _ _ _ _ _ henv h
    · intro fs env pkg opts pfx entries r henv h
      match entries with
      | [] =>
        rw [entryPointsLoop] at h
        exact Option.noConfusion (Except.ok.inj h)
      | entry :: rest =>
        rw [entryPointsLoop] at h
        split at h
        next e' heq => exact Except.noConfusion h
        next res heq =>
          split at h
          next r0 heq2 =>
            cases h
            rw [truthyOpt_some heq2] at heq
            obtain ⟨f, hf, t, rfl⟩ := ihF _ _ _ _ _ _ _ henv heq
            exact ⟨f, hf, t ++ pfx, strAppendAssoc f t pfx⟩
          next heq2 => exact ihL _ _ _ _ _ _ _ henv h


/-! ## Claim theorems -/

/-- C4: `getConditions` returns the configured conditions in order with
the placeholder condition replaced by production/development, followed by
exactly one appended element (`require` iff `isRequire`, else `import`):
the length is the input length plus one, the last entry is the
require/import marker, and every input position is the original
condition with only the placeholder substituted. -/
theorem c4_conditions_shape (conditions : List String)
    (isProduction isRequire : Bool) :
    (getConditions conditions isProduction isRequire).length =
      conditions.length + 1
  ∧ (getConditions conditions isProduction isRequire).getLast? =
      some (if isRequire then "require" else "import")
  ∧ ∀ i, i < conditions.length →
      (getConditions conditions isProduction isRequire)[i]? =
        (conditions[i]?).map (fun condition =>
          if condition = DEV_PROD_CONDITION then
            (if isProduction then "production" else "development")
          else condition) := by
  refine ⟨?_, ?_, ?_⟩
  · unfold getConditions
    cases isRequire <;> simp
  · unfold getConditions
    cases isRequire <;> simp
  · intro i hi
    unfold getConditions
    have hlen : i < (conditions.map (fun condition =>
        if condition = DEV_PROD_CONDITION then
          (if isProduction then "production" else "development")
        else condition)).length := by simpa using hi
    cases isRequire <;>
      simp only [Bool.false_eq_true, if_false, if_true,
        List.getElem?_append_left hlen, List.getElem?_map]

/-- The for-in loop of `mapWithBrowserField` is first-match lookup over
the table. -/
theorem mapWithBrowserFieldLoop_find (np : String)
    (map : List (String × BrowserMapVal)) :
    mapWithBrowserFieldLoop np map =
      (map.find? (fun kv => browserKeyTest np (posixNormalize kv.1))).map
        Prod.snd := by
  induction map with
  | nil => rfl
  | cons kv rest ih =>
    obtain ⟨key, v⟩ := kv
    by_cases hb : browserKeyTest np (posixNormalize key) = true
    · rw [mapWithBrowserFieldLoop]
      rw [if_pos hb, List.find?_cons_of_pos _ (by simpa using hb)]
      rfl
    · rw [mapWithBrowserFieldLoop]
      rw [if_neg hb, List.find?_cons_of_neg _ (by simpa using hb)]
      exact ih

/-- C8: `mapWithBrowserField` POSIX-normalizes the subpath and each key
and returns the value of the first key (in table order) whose normalized
form matches exactly, or after dropping a trailing `.js`, or after
dropping a trailing `/index.js`; no matching key yields no mapping; in
particular the key `./foo/index.js` matches the subpath `./foo`. -/
theorem c8_browser_field_matching :
    (∀ relativePathInPkgDir (map : List (String × BrowserMapVal)),
      mapWithBrowserField relativePathInPkgDir map =
        (map.find? (fun kv =>
          browserKeyTest (posixNormalize relativePathInPkgDir)
            (posixNormalize kv.1))).map Prod.snd)
  ∧ mapWithBrowserField "./foo"
      [("./foo/index.js", BrowserMapVal.str "./lib/foo.js")] =
      some (BrowserMapVal.str "./lib/foo.js") := by
  constructor
  · intro sub map
    unfold mapWithBrowserField
    exact mapWithBrowserFieldLoop_find (posixNormalize sub) map
  · decide

theorem listIsPre_self_append (p rest : List Char) :
    listIsPre p (p ++ rest) = true := by
  induction p with
  | nil => rfl
  | cons c cs ih => simp [listIsPre, ih]

theorem subIdx?_isSome_append (l1 pat l2 : List Char) :
    (subIdx? (l1 ++ (pat ++ l2)) pat).isSome = true := by
  induction l1 with
  | nil =>
    rw [subIdx?.eq_def]
    simp [listIsPre_self_append]
  | cons c cs ih =>
    rw [subIdx?.eq_def]
    dsimp only
    by_cases hp : listIsPre pat (c :: cs ++ (pat ++ l2)) = true
    · rw [if_pos hp]; rfl
    · simp only [hp, Bool.false_eq_true, if_false]
      simpa using ih

theorem strContainsStr_mid (a b c : String) :
    strContainsStr (a ++ (b ++ c)) b = true := by
  unfold strContainsStr
  rw [strDataAppend, strDataAppend]
  exact subIdx?_isSome_append a.data b.data c.data

/-- Errors of the deep-import filesystem stage are only the fuel
artifact. -/
theorem deepFsStage_err {fuel : Nat} {fs : Fsys} {env : PkgEnv}
    {pkg : PackageData} {opts : InternalResolveOptions} {he : Bool}
    {rel : Option String} {e : JsError}
    (h : deepFsStage fuel fs env pkg opts he rel = .error e) :
    e = outOfFuelErr := by
  unfold deepFsStage at h
  split at h
  next rid =>
    split at h
    · split at h
      next e2 heq => cases h; exact (resolverErrInv fuel).1 _ _ _ _ _ _ _ heq
      next heq => exact Except.noConfusion h
    · exact Except.noConfusion h
  next => exact Except.noConfusion h

/-- C2: for a deep import into a package whose manifest declares a
conditional export map, a subpath that the map does not expose (or an
array-form exports field) makes `resolveDeepImport` throw the
subpath-not-exported error, whose message contains the package manifest
path (and hence the package directory) -- it does not return the
not-found result; a package without an export map can never produce this
error (its only failure is the fuel artifact, whose code is set). -/
theorem c2_subpath_not_exported (fuel : Nat) (fs : Fsys) (env : PkgEnv)
    (id : String) (pkg : PackageData) (opts : InternalResolveOptions)
    (hcache : (slookup pkg.cache id).filter (fun v => v != "") = none) :
    (∀ entries, pkg.data.exports = some (.obj entries) →
      resolveExportsOrImports pkg.data (splitFileAndPostfix id).1 opts
        ExpImpKind.exportsK = none →
      ∃ e, resolveDeepImport fuel fs env id pkg opts = .error e ∧
        strContainsStr e.message (pathJoin pkg.dir "package.json") = true ∧
        e.code = none)
  ∧ (∀ xs, pkg.data.exports = some (.arr xs) →
      ∃ e, resolveDeepImport fuel fs env id pkg opts = .error e ∧
        strContainsStr e.message (pathJoin pkg.dir "package.json") = true ∧
        e.code = none)
  ∧ (pkg.data.exports = none →
      ∀ e, resolveDeepImport fuel fs env id pkg opts = .error e →
        e = outOfFuelErr) := by
  have hmsg : strContainsStr (subpathNotExportedErr none pkg.dir).message
      (pathJoin pkg.dir "package.json") = true := by
    show strContainsStr
      ("Package subpath '" ++ "undefined" ++
        "' is not defined by \"exports\" in " ++ pathJoin pkg.dir "package.json"
        ++ ".") (pathJoin pkg.dir "package.json") = true
    rw [strAppendAssoc]
    exact strContainsStr_mid _ _ _
  refine ⟨?_, ?_, ?_⟩
  · intro entries hexp hlook
    refine ⟨subpathNotExportedErr none pkg.dir, ?_, hmsg, rfl⟩
    unfold resolveDeepImport
    rw [hcache]
    rw [hexp]
    dsimp only
    rw [hlook]
    rfl
  · intro xs hexp
    refine ⟨subpathNotExportedErr none pkg.dir, ?_, hmsg, rfl⟩
    unfold resolveDeepImport
    rw [hcache]
    rw [hexp]
    rfl
  · intro hexp e h
    unfold resolveDeepImport at h
    rw [hcache, hexp] at h
    simp only [exportsTruthy, Bool.false_eq_true, if_false] at h
    split at h
    next m =>
      split at h
      · split at h
        next mapped heq =>
          split at h
          · exact deepFsStage_err h
          · exact deepFsStage_err h
        next heq => exact Except.noConfusion h
        next heq => exact deepFsStage_err h
      · exact deepFsStage_err h
    next => exact deepFsStage_err h

/-- C3: `resolvePackageEntry` is total over success-or-throw: with any
positive fuel it never returns the not-found result, and every error it
returns is the package-entry failure for its own specifier (underlying
detail attached when one occurred). -/
theorem c3_entry_resolution_total (n : Nat) (fs : Fsys) (env : PkgEnv)
    (id : String) (pkg : PackageData) (opts : InternalResolveOptions) :
    resolvePackageEntry (n + 1) fs env id pkg opts ≠ .ok none
  ∧ ∀ e, resolvePackageEntry (n + 1) fs env id pkg opts = .error e →
      ∃ d, e = packageEntryFailureErr id d := by
  constructor
  · intro h
    rw [resolvePackageEntry] at h
    split at h
    next cached _ => exact Option.noConfusion (Except.ok.inj h)
    next =>
      split at h
      next r heq => exact Option.noConfusion (Except.ok.inj h)
      next heq => exact Except.noConfusion h
      next e2 heq => exact Except.noConfusion h
  · intro e h
    rw [resolvePackageEntry] at h
    split at h
    next cached _ => exact Except.noConfusion h
    next =>
      split at h
      next r heq => exact Except.noConfusion h
      next heq => exact ⟨none, (Except.error.inj h).symm⟩
      next e2 heq => exact ⟨some e2.message, (Except.error.inj h).symm⟩

/-- C5: compiled-output swap priority in `tryCleanFsResolve`.  For a path
that is not an existing file, whose extension matches the compiled-output
pattern and whose parent directory exists: when the typed-source swap
(extension with `js` replaced by `ts`) exists it is returned immediately
-- regardless of what plain extension probing would find -- and for a
plain `.js` path whose `.ts` swap misses, the `.tsx` variant is returned
next, still ahead of extension probing. -/
theorem c5_ts_swap_priority (n : Nat) (fs : Fsys) (env : PkgEnv)
    (file : String) (opts : InternalResolveOptions) (ti sp : Bool)
    (hnotfile : isFileFs fs file = false)
    (hposs : isPossibleTsOutput file = true)
    (hdir : isDirFs fs (posixDirname file) = true) :
    (isFileFs fs (jsSliceNeg file (lenStr (posixExtname file)) ++
        strReplaceFirst (posixExtname file) "js" "ts") = true →
      jsSliceNeg file (lenStr (posixExtname file)) ++
        strReplaceFirst (posixExtname file) "js" "ts" ≠ "" →
      tryCleanFsResolve (n + 2) fs env file opts ti sp =
        .ok (some (jsSliceNeg file (lenStr (posixExtname file)) ++
          strReplaceFirst (posixExtname file) "js" "ts")))
  ∧ (posixExtname file = ".js" →
      isFileFs fs (jsSliceNeg file (lenStr (posixExtname file)) ++
        strReplaceFirst (posixExtname file) "js" "ts") = false →
      isFileFs fs (jsSliceNeg file (lenStr (posixExtname file)) ++ ".tsx") = true →
      jsSliceNeg file (lenStr (posixExtname file)) ++ ".tsx" ≠ "" →
      tryCleanFsResolve (n + 2) fs env file opts ti sp =
        .ok (some (jsSliceNeg file (lenStr (posixExtname file)) ++ ".tsx"))) := by
  have hguard : (isPossibleTsOutput file || !(opts.extensions == []) ||
      jsTruthy opts.tryPrefix) = true := by
    rw [hposs]; rfl
  have hfr : tryResolveRealFileOrType fs file opts.preserveSymlinks =
      (if isDirFs fs file then some .directory else none) := by
    unfold tryResolveRealFileOrType
    rw [hnotfile]
    simp
  constructor
  · intro hswap hne
    have hstep : cleanStep2 fs file opts =
        some (jsSliceNeg file (lenStr (posixExtname file)) ++
          strReplaceFirst (posixExtname file) "js" "ts") := by
      unfold cleanStep2
      rw [if_pos hguard]
      unfold isDirectory
      rw [if_pos hdir, hposs]
      have : tsSwapProbe fs file opts.preserveSymlinks =
          some (jsSliceNeg file (lenStr (posixExtname file)) ++
            strReplaceFirst (posixExtname file) "js" "ts") := by
        unfold tsSwapProbe
        unfold tryResolveRealFile
        dsimp only
        rw [hswap]
        simp [truthyOpt, jsTruthy, getRealPath, hne]
      rw [this]
      rfl
    rw [tryCleanFsResolve, hfr]
    cases hd : isDirFs fs file <;>
      · simp only [if_true, if_false, Bool.false_eq_true]
        rw [tryCleanRest, hstep]
  · intro hjs hmiss htsx hne
    rw [hjs] at hmiss htsx hne ⊢
    have hstep : cleanStep2 fs file opts =
        some (jsSliceNeg file (lenStr ".js") ++ ".tsx") := by
      unfold cleanStep2
      rw [if_pos hguard]
      unfold isDirectory
      rw [if_pos hdir, hposs]
      have hpr : tsSwapProbe fs file opts.preserveSymlinks =
          some (jsSliceNeg file (lenStr ".js") ++ ".tsx") := by
        unfold tsSwapProbe
        unfold tryResolveRealFile
        dsimp only
        rw [hjs]
        rw [hmiss, htsx]
        simp [truthyOpt, jsTruthy, getRealPath, hne]
      rw [hpr]
      rfl
    rw [tryCleanFsResolve, hfr]
    cases hd : isDirFs fs file <;>
      · simp only [if_true, if_false, Bool.false_eq_true]
        rw [tryCleanRest, hstep]

/-- C10: the `#` handling of `tryFsResolve`.  When the dependency-path
special case applies (the path is inside node_modules and a `#` occurs
before any `?`), the prefix up to the query -- with the `#` kept
literally in the file name -- is clean-resolved first: a truthy hit
returns it with the remainder reattached, a miss falls back to the
ordinary postfix split; when the special case does not apply (in
particular for every path outside node_modules) the `#` is always
treated as postfix via the ordinary split. -/
theorem c10_hash_in_node_modules (n : Nat) (fs : Fsys) (env : PkgEnv)
    (fsPath : String) (opts : InternalResolveOptions) (ti sp : Bool) :
    (∀ fp, hashBranchSplit fsPath = some fp →
      isInNodeModules fsPath = true
      ∧ (∀ r, tryCleanFsResolve n fs env fp.1 opts ti sp = .ok (some r) →
          r ≠ "" →
          tryFsResolve (n + 1) fs env fsPath opts ti sp = .ok (some (r ++ fp.2)))
      ∧ (tryCleanFsResolve n fs env fp.1 opts ti sp = .ok none →
          tryFsResolve (n + 1) fs env fsPath opts ti sp =
            postSplitResolve n fs env fsPath opts ti sp))
  ∧ (hashBranchSplit fsPath = none →
      tryFsResolve (n + 1) fs env fsPath opts ti sp =
        postSplitResolve n fs env fsPath opts ti sp)
  ∧ (isInNodeModules fsPath = false → hashBranchSplit fsPath = none) := by
  refine ⟨?_, ?_, ?_⟩
  · intro fp hfp
    have hin : isInNodeModules fsPath = true := by
      unfold hashBranchSplit at hfp
      split at hfp
      · exact Option.noConfusion hfp
      · split at hfp
        · assumption
        · exact Option.noConfusion hfp
    refine ⟨hin, ?_, ?_⟩
    · intro r hclean hr
      rw [tryFsResolve, hfp]
      dsimp only
      rw [hclean]
      simp [truthyOpt, jsTruthy, hr]
    · intro hclean
      rw [tryFsResolve, hfp]
      dsimp only
      rw [hclean]
      rfl
  · intro hfp
    rw [tryFsResolve, hfp]
  · intro hout
    unfold hashBranchSplit
    split
    · rfl
    · rw [hout]
      rfl

/-- The postfix-splitting tail satisfies the postfix-reattachment law on
the nose: resolving a path equals resolving its bare file part and
appending the postfix. -/
theorem postSplitResolve_postfix (m : Nat) (fs : Fsys) (env : PkgEnv)
    (fsPath : String) (opts : InternalResolveOptions) (ti sp : Bool) :
    postSplitResolve m fs env fsPath opts ti sp =
      Except.map (Option.map (fun r => r ++ (splitFileAndPostfix fsPath).2))
        (postSplitResolve m fs env (splitFileAndPostfix fsPath).1 opts ti sp) := by
  match m with
  | 0 => rw [postSplitResolve]; rfl
  | m + 1 =>
    rw [postSplitResolve, postSplitResolve]
    have hidem := splitFileAndPostfix_fst_idem fsPath
    have h1 : (splitFileAndPostfix (splitFileAndPostfix fsPath).1).1 =
        (splitFileAndPostfix fsPath).1 := by rw [hidem]
    have h2 : (splitFileAndPostfix (splitFileAndPostfix fsPath).1).2 = "" := by
      rw [hidem]
    rw [h1, h2]
    cases hc : tryCleanFsResolve m fs env (splitFileAndPostfix fsPath).1 opts
        ti sp with
    | error e => rfl
    | ok res =>
      dsimp only
      cases ht : truthyOpt res with
      | none => rfl
      | some r =>
        dsimp only [Except.map, Option.map]
        rw [strAppendNil]

/-- C1 (amended): the postfix-preservation law for `tryFsResolve` holds
whenever the node_modules literal-`#` branch does not itself produce a
result (in particular for every specifier whose postfix begins with `?`,
and for every path outside node_modules): resolving the full specifier
equals resolving the bare file part and reattaching the postfix.  The
law is NOT universal -- see the counterexample. -/
theorem c1_postfix_preservation_amended (n : Nat) (fs : Fsys) (env : PkgEnv)
    (fsPath : String) (opts : InternalResolveOptions) (ti sp : Bool)
    (hbranch : ∀ fp, hashBranchSplit fsPath = some fp →
      ∃ res, tryCleanFsResolve n fs env fp.1 opts ti sp = .ok res ∧
        truthyOpt res = none) :
    tryFsResolve (n + 1) fs env fsPath opts ti sp =
      Except.map (Option.map (fun r => r ++ (splitFileAndPostfix fsPath).2))
        (tryFsResolve (n + 1) fs env (splitFileAndPostfix fsPath).1 opts ti sp) := by
  have hrhs : tryFsResolve (n + 1) fs env (splitFileAndPostfix fsPath).1 opts
      ti sp = postSplitResolve n fs env (splitFileAndPostfix fsPath).1 opts
      ti sp := by
    rw [tryFsResolve, hashBranchSplit_split_fst]
  rw [hrhs]
  cases hb : hashBranchSplit fsPath with
  | none =>
    rw [tryFsResolve, hb]
    exact postSplitResolve_postfix n fs env fsPath opts ti sp
  | some fp =>
    obtain ⟨res, hres, htr⟩ := hbranch fp hb
    rw [tryFsResolve, hb]
    dsimp only
    rw [hres]
    dsimp only
    rw [htr]
    exact postSplitResolve_postfix n fs env fsPath opts ti sp

/-- C1 (counterexample): inside node_modules, a specifier with a `#`
postfix can resolve through the literal-`#` branch (here by extension
probing on the hash-inclusive name) to a result that is NOT the bare
resolution with the postfix reattached, even though both resolutions
succeed: `foo#b` resolves to `foo#b.js` while `foo` resolves to `foo.js`,
and `foo#b.js` differs from `foo.js` + `#b`. -/
theorem c1_counterexample :
    splitFileAndPostfix "/r/node_modules/p/foo#b" =
      ("/r/node_modules/p/foo", "#b")
  ∧ tryFsResolve 5
      { files := ["/r/node_modules/p/foo#b.js", "/r/node_modules/p/foo.js"]
        dirs := ["/r/node_modules/p"] } {} "/r/node_modules/p/foo#b"
      { root := "/r", extensions := [".js"] } true false =
      .ok (some "/r/node_modules/p/foo#b.js")
  ∧ tryFsResolve 5
      { files := ["/r/node_modules/p/foo#b.js", "/r/node_modules/p/foo.js"]
        dirs := ["/r/node_modules/p"] } {} "/r/node_modules/p/foo"
      { root := "/r", extensions := [".js"] } true false =
      .ok (some "/r/node_modules/p/foo.js")
  ∧ ("/r/node_modules/p/foo#b.js" : String) ≠
      "/r/node_modules/p/foo.js" ++ "#b" := by
  refine ⟨by decide, ?_, ?_, by decide⟩
  · rfl
  · rfl

/-- C6: optional peer dependency fallback.  When no package resolves for
the specifier, `tryNodeResolve` returns the optional-peer-dependency
sentinel -- encoding the original specifier and the consuming package's
name -- exactly when the base directory differs from the project root,
the specifier is a non-builtin bare import without a null byte, and the
nearest main manifest lists the specifier's npm package name as an
optional peer dependency; in every other no-package case it returns the
not-found result. -/
theorem c6_optional_peer_dep (fuel : Nat) (fs : Fsys) (env : PkgEnv)
    (id : String) (importer : Option String) (opts : InternalResolveOptions)
    (hno : resolvedPkgFor env opts id (pkgIdFor id)
      (basedirFor fs opts importer (pkgIdFor id)) = none) :
    (∀ mainPkgData pkgName,
      (basedirFor fs opts importer (pkgIdFor id) != opts.root) = true →
      isBuiltin opts.builtins id = false →
      strContainsStr id nullByteStr = false →
      bareImportTest id = true →
      slookup env.nearestMain (basedirFor fs opts importer (pkgIdFor id)) =
        some mainPkgData →
      getNpmPackageName id = some pkgName →
      jsTruthy (slookup mainPkgData.data.peerDependencies pkgName) = true →
      (slookup mainPkgData.data.peerDependenciesMeta pkgName).getD false = true →
      tryNodeResolve fuel fs env id importer opts =
        .ok (some { id := optionalPeerDepId ++ ":" ++ id ++ ":" ++
          (mainPkgData.data.name.getD "undefined") }))
  ∧ ((basedirFor fs opts importer (pkgIdFor id) = opts.root
      ∨ isBuiltin opts.builtins id = true
      ∨ strContainsStr id nullByteStr = true
      ∨ bareImportTest id = false
      ∨ slookup env.nearestMain (basedirFor fs opts importer (pkgIdFor id)) = none
      ∨ (∃ mainPkgData,
          slookup env.nearestMain (basedirFor fs opts importer (pkgIdFor id)) =
            some mainPkgData
          ∧ (getNpmPackageName id = none
            ∨ ∃ pkgName, getNpmPackageName id = some pkgName
              ∧ (jsTruthy (slookup mainPkgData.data.peerDependencies pkgName) =
                  false
                ∨ (slookup mainPkgData.data.peerDependenciesMeta
                    pkgName).getD false = false)))) →
      tryNodeResolve fuel fs env id importer opts = .ok none) := by
  constructor
  · intro mainPkgData pkgName hroot hb hnul hbare hmain hnpm hpeer hmeta
    unfold tryNodeResolve
    dsimp only
    rw [hno]
    rw [hroot, hb, hnul, hbare]
    dsimp only
    rw [hmain, hnpm]
    dsimp only
    rw [hpeer, hmeta]
    rfl
  · intro hcases
    unfold tryNodeResolve
    dsimp only
    rw [hno]
    rcases hcases with hroot | hb | hnul | hbare | hmain | ⟨mp, hmp, hrest⟩
    · rw [show (basedirFor fs opts importer (pkgIdFor id) != opts.root) = false
        by simp [hroot]]
      rfl
    · rw [hb]
      simp
    · rw [hnul]
      simp
    · rw [hbare]
      simp
    · by_cases hcond : (basedirFor fs opts importer (pkgIdFor id) != opts.root &&
          !isBuiltin opts.builtins id && !strContainsStr id nullByteStr &&
          bareImportTest id) = true
      · rw [if_pos hcond, hmain]
      · rw [if_neg hcond]
    · by_cases hcond : (basedirFor fs opts importer (pkgIdFor id) != opts.root &&
          !isBuiltin opts.builtins id && !strContainsStr id nullByteStr &&
          bareImportTest id) = true
      · rw [if_pos hcond, hmp]
        dsimp only
        rcases hrest with hnpm | ⟨pn, hpn, hx⟩
        · rw [hnpm]
        · rw [hpn]
          dsimp only
          rcases hx with hp | hm
          · simp [hp]
          · simp [hm]
      · rw [if_neg hcond]

/-- C7: self-reference.  With a non-builtin, null-byte-free bare
specifier whose nearest manifest names the requested package, the
package chosen by `tryNodeResolve` (via `resolvedPkgFor`) is that
manifest exactly when it declares a (truthy) export map; without one
the self manifest is ignored and the external lookup's answer is used. -/
theorem c7_self_reference (env : PkgEnv) (opts : InternalResolveOptions)
    (id pkgId basedir : String) (spd : PackageData)
    (hb : isBuiltin opts.builtins id = false)
    (hnul : strContainsStr id nullByteStr = false)
    (hbare : bareImportTest id = true)
    (hnear : slookup env.nearest basedir = some spd)
    (hname : spd.data.name = some pkgId) :
    (exportsTruthy spd.data.exports = true →
      resolvedPkgFor env opts id pkgId basedir = some spd)
  ∧ (exportsTruthy spd.data.exports = false →
      resolvedPkgFor env opts id pkgId basedir =
        plookup env.byNameBase (pkgId, basedir)) := by
  constructor
  · intro hexp
    unfold resolvedPkgFor selfPkgFor
    rw [hb, hnul, hbare]
    simp only [Bool.not_false, Bool.and_true, Bool.and_self, if_true]
    rw [hnear]
    dsimp only
    rw [hexp, hname]
    simp
  · intro hexp
    unfold resolvedPkgFor selfPkgFor
    rw [hb, hnul, hbare]
    simp only [Bool.not_false, Bool.and_true, Bool.and_self, if_true]
    rw [hnear]
    dsimp only
    rw [hexp]
    simp

theorem isAbsolute_head {f : String} (h : isAbsolute f = true) :
    f.data.head? = some '/' := by
  unfold isAbsolute strStartsWith at h
  rw [show ("/" : String).data = ['/'] from rfl] at h
  cases hfd : f.data with
  | nil => rw [hfd] at h; exact absurd h (by simp [listIsPre])
  | cons c cs =>
    rw [hfd] at h
    simp only [listIsPre, Bool.and_eq_true, beq_iff_eq] at h
    rw [h.1]
    rfl

/-- C9: a falsy object-form browser mapping (`false` or the empty
string) of a root entry candidate is discarded -- the original candidate
is kept -- and consequently `resolvePackageEntry` can never produce the
browser-external sentinel (its successes are always real absolute file
paths, and the sentinel does not start with a separator), while
`resolveDeepImport` does produce the sentinel for a `false` mapping. -/
theorem c9_browser_falsy_root_entry :
    (∀ (opts : InternalResolveOptions) (data : PackageJson) (entry : String)
        entries,
      data.browser = .obj entries →
      opts.mainFields.contains "browser" = true →
      (mapWithBrowserField entry entries = some BrowserMapVal.fls ∨
        mapWithBrowserField entry entries = some (BrowserMapVal.str "")) →
      remapBrowserEntry opts data entry = entry)
  ∧ (∀ (n : Nat) (fs : Fsys) (env : PkgEnv) (id : String) (pkg : PackageData)
        (opts : InternalResolveOptions) (r : String),
      envCleanCaches env → pkg.cache = [] →
      (∀ f ∈ fs.files, isAbsolute f = true) →
      resolvePackageEntry n fs env id pkg opts = .ok (some r) →
      r ≠ browserExternalId)
  ∧ (∃ (fs : Fsys) (env : PkgEnv) (pkg : PackageData)
        (opts : InternalResolveOptions),
      resolveDeepImport 1 fs env "./x" pkg opts =
        .ok (some browserExternalId)) := by
  refine ⟨?_, ?_, ?_⟩
  · intro opts data entry entries hbr hmf hmap
    unfold remapBrowserEntry
    rw [hbr]
    dsimp only
    rw [if_pos hmf]
    rcases hmap with hm | hm <;> simp [hm]
  · intro n fs env id pkg opts r henv hc habs h heq
    obtain ⟨f, hf, t, hft⟩ :=
      (resolverOkInv n).2.2.2.2.1 fs env id pkg opts r henv hc h
    rw [hft] at heq
    have habs2 := habs f hf
    have hd : f.data ++ t.data = browserExternalId.data := by
      rw [← strDataAppend, heq]
    cases hfd : f.data with
    | nil =>
      have hh := isAbsolute_head habs2
      rw [hfd] at hh
      exact Option.noConfusion hh
    | cons c cs =>
      have hh := isAbsolute_head habs2
      rw [hfd] at hh
      have hc1 : c = '/' := Option.some.inj hh
      rw [hfd] at hd
      have hgl : (c :: (cs ++ t.data)).head? = browserExternalId.data.head? := by
        rw [← hd]
        rfl
      rw [show browserExternalId.data.head? = some '_' from rfl] at hgl
      have hc2 : c = '_' := Option.some.inj hgl
      rw [hc1] at hc2
      exact absurd hc2 (by decide)
  · exact ⟨{}, {}, { dir := "/m", data := { browser := .obj [("./x", .fls)] } },
      { mainFields := ["browser"] }, rfl⟩

/-! ## Witnesses -/

theorem c1_postfix_preservation_amended_witness :
    tryFsResolve 3 { files := ["/a/b.js"], dirs := ["/a"] } {} "/a/b?q"
      { extensions := [".js"] } true false =
      Except.map (Option.map (fun r => r ++ (splitFileAndPostfix "/a/b?q").2))
        (tryFsResolve 3 { files := ["/a/b.js"], dirs := ["/a"] } {}
          (splitFileAndPostfix "/a/b?q").1 { extensions := [".js"] } true
          false) :=
  c1_postfix_preservation_amended 2 { files := ["/a/b.js"], dirs := ["/a"] } {}
    "/a/b?q" { extensions := [".js"] } true false
    (fun fp h => Option.noConfusion
      (show (none : Option (String × String)) = some fp from h))

theorem c2_subpath_not_exported_witness :
    ∃ e, resolveDeepImport 3 {} {} "./missing"
        { dir := "/r/node_modules/pkg"
          data := { exports := some (.obj [("./present", "./p.js")]) } } {} =
        .error e ∧
      strContainsStr e.message
        (pathJoin "/r/node_modules/pkg" "package.json") = true ∧
      e.code = none :=
  (c2_subpath_not_exported 3 {} {} "./missing"
    { dir := "/r/node_modules/pkg"
      data := { exports := some (.obj [("./present", "./p.js")]) } } {}
    rfl).1 [("./present", "./p.js")] rfl rfl

theorem c3_entry_resolution_total_witness :
    resolvePackageEntry 9 {} {} "q" { dir := "/q", data := {} } {} ≠ .ok none
  ∧ ∃ d, packageEntryFailureErr "q" none = packageEntryFailureErr "q" d :=
  ⟨(c3_entry_resolution_total 8 {} {} "q" { dir := "/q", data := {} } {}).1,
    (c3_entry_resolution_total 8 {} {} "q" { dir := "/q", data := {} } {}).2
      (packageEntryFailureErr "q" none) rfl⟩

theorem c4_conditions_shape_witness :
    (getConditions ["custom", DEV_PROD_CONDITION] true false).length = 2 + 1
  ∧ (getConditions ["custom", DEV_PROD_CONDITION] true false).getLast? =
      some (if false then "require" else "import")
  ∧ (getConditions ["custom", DEV_PROD_CONDITION] true false)[1]? =
      ((["custom", DEV_PROD_CONDITION] : List String)[1]?).map
        (fun condition =>
          if condition = DEV_PROD_CONDITION then
            (if true then "production" else "development")
          else condition) :=
  ⟨(c4_conditions_shape ["custom", DEV_PROD_CONDITION] true false).1,
    (c4_conditions_shape ["custom", DEV_PROD_CONDITION] true false).2.1,
    (c4_conditions_shape ["custom", DEV_PROD_CONDITION] true false).2.2 1
      (by decide)⟩

theorem c5_ts_swap_priority_witness :
    tryCleanFsResolve 3 { files := ["/d/x.ts", "/d/x.js.js"], dirs := ["/d"] }
      {} "/d/x.js" { extensions := [".js"] } true false =
      .ok (some "/d/x.ts")
  ∧ tryCleanFsResolve 3 { files := ["/d2/y.tsx"], dirs := ["/d2"] } {}
      "/d2/y.js" { extensions := [".js"] } true false =
      .ok (some "/d2/y.tsx") :=
  ⟨(c5_ts_swap_priority 1 { files := ["/d/x.ts", "/d/x.js.js"], dirs := ["/d"] }
      {} "/d/x.js" { extensions := [".js"] } true false (by decide) (by decide)
      (by decide)).1 (by decide) (by decide),
    (c5_ts_swap_priority 1 { files := ["/d2/y.tsx"], dirs := ["/d2"] } {}
      "/d2/y.js" { extensions := [".js"] } true false (by decide) (by decide)
      (by decide)).2 (by decide) (by decide) (by decide) (by decide)⟩

theorem c6_optional_peer_dep_witness :
    tryNodeResolve 3
      { files := ["/p/node_modules/consumer/src/a.js"]
        dirs := ["/p/node_modules/consumer/src"] }
      { nearestMain := [("/p/node_modules/consumer/src",
          { dir := "/p/node_modules/consumer"
            data := { name := some "consumer"
                      peerDependencies := [("bar", "*")]
                      peerDependenciesMeta := [("bar", true)] } })] }
      "bar" (some "/p/node_modules/consumer/src/a.js") { root := "/p" } =
      .ok (some { id := "__vite-optional-peer-dep:bar:consumer" }) :=
  (c6_optional_peer_dep 3
    { files := ["/p/node_modules/consumer/src/a.js"]
      dirs := ["/p/node_modules/consumer/src"] }
    { nearestMain := [("/p/node_modules/consumer/src",
        { dir := "/p/node_modules/consumer"
          data := { name := some "consumer"
                    peerDependencies := [("bar", "*")]
                    peerDependenciesMeta := [("bar", true)] } })] }
    "bar" (some "/p/node_modules/consumer/src/a.js") { root := "/p" } rfl).1
    { dir := "/p/node_modules/consumer"
      data := { name := some "consumer"
                peerDependencies := [("bar", "*")]
                peerDependenciesMeta := [("bar", true)] } }
    "bar" rfl rfl rfl rfl rfl rfl rfl rfl

theorem c7_self_reference_witness :
    resolvedPkgFor
      { nearest := [("/proj/pkg/src",
          { dir := "/proj/pkg"
            data := { name := some "pkg"
                      exports := some (.obj [(".", "./main.js"),
                        ("./sub", "./sub.js")]) } })] }
      {} "pkg/sub" "pkg" "/proj/pkg/src" =
      some { dir := "/proj/pkg"
             data := { name := some "pkg"
                       exports := some (.obj [(".", "./main.js"),
                         ("./sub", "./sub.js")]) } } :=
  (c7_self_reference
    { nearest := [("/proj/pkg/src",
        { dir := "/proj/pkg"
          data := { name := some "pkg"
                    exports := some (.obj [(".", "./main.js"),
                      ("./sub", "./sub.js")]) } })] }
    {} "pkg/sub" "pkg" "/proj/pkg/src"
    { dir := "/proj/pkg"
      data := { name := some "pkg"
                exports := some (.obj [(".", "./main.js"),
                  ("./sub", "./sub.js")]) } }
    rfl rfl rfl rfl rfl).1 rfl

theorem c9_browser_falsy_root_entry_witness :
    remapBrowserEntry { mainFields := ["browser"] }
      { browser := .obj [("./x", .fls)] } "./x" = "./x"
  ∧ ("/q/index.js" : String) ≠ browserExternalId :=
  ⟨c9_browser_falsy_root_entry.1 { mainFields := ["browser"] }
      { browser := .obj [("./x", .fls)] } "./x" [("./x", .fls)] rfl rfl
      (Or.inl (by decide)),
    c9_browser_falsy_root_entry.2.1 9
      { files := ["/q/index.js"], dirs := ["/q"] } {} "q"
      { dir := "/q", data := {} } {} "/q/index.js"
      (fun k p h => Option.noConfusion h) rfl (by decide) rfl⟩

theorem c10_hash_in_node_modules_witness :
    tryFsResolve 5
      { files := ["/r/node_modules/p/foo#b.js"], dirs := ["/r/node_modules/p"] }
      {} "/r/node_modules/p/foo#b" { extensions := [".js"] } true false =
      .ok (some "/r/node_modules/p/foo#b.js")
  ∧ hashBranchSplit "/a/b#c" = none :=
  ⟨((c10_hash_in_node_modules 4
      { files := ["/r/node_modules/p/foo#b.js"], dirs := ["/r/node_modules/p"] }
      {} "/r/node_modules/p/foo#b" { extensions := [".js"] } true false).1
      ("/r/node_modules/p/foo#b", "") (by decide)).2.1
      "/r/node_modules/p/foo#b.js" rfl (by decide),
    (c10_hash_in_node_modules 4 {} {} "/a/b#c" {} true false).2.2 (by decide)⟩
